import Mathlib

/-
Verification of the random-walk spline generator (`RandomWalkingSplines.py`).

The add-on's generation core is embedded shallowly:

* Python's `random.Random` is modelled as an abstract stream of uniform
  draws together with a cursor: `RNG`.  Seeding (`random.Random();
  prng.seed(s)`) is modelled by selecting the stream `mtStream s` for a
  stream family `mtStream : ℕ → ℕ → ℝ` (the Mersenne-Twister output as a
  function of the seed) and resetting the cursor to 0.  All theorems are
  universally quantified over the stream family, so they hold in
  particular for the real Mersenne-Twister streams.
* `mathutils` vectors are `Vec3` (real components).  Blender's
  `Vector.rotate(Euler((x, y, z)))` (default rotation order "XYZ")
  applies the rotation matrix `Rz(z) * Ry(y) * Rx(x)` to the vector:
  the three axis rotations are applied about the *fixed* axes X, then Y,
  then Z (extrinsic composition); this is Blender's `eul_to_mat3`.
* Scene state (`bpy.data.objects`, selection, parenting, the "empty"
  container) is modelled explicitly by `Scene`/`Obj`, and the operator's
  `execute` is a pure state transformer that additionally returns the
  list of generated vertex paths (the batch) and the final PRNG state.
-/

namespace RandomWalkingSplines

/-- A 3D vector (`mathutils.Vector` restricted to the operations used). -/
@[ext]
structure Vec3 where
  x : ℝ
  y : ℝ
  z : ℝ

instance : Add Vec3 := ⟨fun a b => ⟨a.x + b.x, a.y + b.y, a.z + b.z⟩⟩

instance : Sub Vec3 := ⟨fun a b => ⟨a.x - b.x, a.y - b.y, a.z - b.z⟩⟩

/-- A 4D spline control point `(x, y, z, w)` as stored on a Blender NURBS spline. -/
abbrev Vec4 := ℝ × ℝ × ℝ × ℝ

/-- Python's `random.Random`, modelled as the stream of uniform draws in
`[0, 1)` it will emit (`stream`) together with how many draws have been
consumed so far (`idx`).  `random()` returns `stream idx` and advances. -/
structure RNG where
  stream : ℕ → ℝ
  idx : ℕ

/-- The value of the next `random()` call. -/
def RNG.next (r : RNG) : ℝ := r.stream r.idx

/-- The PRNG state after one `random()` call. -/
def RNG.advance (r : RNG) : RNG := ⟨r.stream, r.idx + 1⟩

/-- The operator's mutable class attribute `prng` (line 73): the PRNG state
the operator holds between or after invocations. -/
structure OpState where
  prng : RNG

/-- `random_range` (lines 77-78): `min + (self.prng.random() * (max - min))`,
returning the drawn value and the advanced PRNG. -/
def random_range (rng : RNG) (min max : ℝ) : ℝ × RNG :=
  (min + rng.next * (max - min), rng.advance)

/-- Rotation about the X axis (right-handed, angle in radians). -/
noncomputable def rotX (a : ℝ) (v : Vec3) : Vec3 :=
  ⟨v.x, Real.cos a * v.y - Real.sin a * v.z, Real.sin a * v.y + Real.cos a * v.z⟩

/-- Rotation about the Y axis (right-handed, angle in radians). -/
noncomputable def rotY (a : ℝ) (v : Vec3) : Vec3 :=
  ⟨Real.cos a * v.x + Real.sin a * v.z, v.y, -(Real.sin a) * v.x + Real.cos a * v.z⟩

/-- Rotation about the Z axis (right-handed, angle in radians). -/
noncomputable def rotZ (a : ℝ) (v : Vec3) : Vec3 :=
  ⟨Real.cos a * v.x - Real.sin a * v.y, Real.sin a * v.x + Real.cos a * v.y, v.z⟩

/-- Blender's `v.rotate(Euler((ex, ey, ez)))` with the default rotation
order "XYZ": the axis rotations are applied about the fixed axes X, then
Y, then Z (extrinsic composition), i.e. `v ↦ Rz(ez) (Ry(ey) (Rx(ex) v))`;
this is the matrix produced by Blender's `eul_to_mat3`. -/
noncomputable def eulerRotate (ex ey ez : ℝ) (v : Vec3) : Vec3 := rotZ ez (rotY ey (rotX ex v))

/-- Modelled from the spec: the rotation as the spec's words describe it,
"axis order X, then Y, then Z, angles applied as Euler rotation,
*intrinsic* composition".  An intrinsic rotation sequence about X, then
the rotated Y, then the twice-rotated Z has total matrix
`Rx(ex) * Ry(ey) * Rz(ez)`, i.e. `v ↦ Rx(ex) (Ry(ey) (Rz(ez) v))`. -/
noncomputable def eulerRotateIntrinsicXYZ (ex ey ez : ℝ) (v : Vec3) : Vec3 := rotX ex (rotY ey (rotZ ez v))

/-- The clamp at the top of `generate_walking_verts` (lines 87-88):
`if pathLength < 1: pathLength = 1`. -/
def clampLen (pathLength : ℤ) : ℤ := if pathLength < 1 then 1 else pathLength

/-- The walk loop of `generate_walking_verts` (lines 98-110): given the
number of remaining iterations, the PRNG, `lastPos` and `moveVec`, draw
three angles with `random_range`, rotate `moveVec` by the Euler rotation,
add it to `lastPos`, append the new position, and continue. -/
noncomputable def walkAux (minMove maxMove : ℝ) : ℕ → RNG → Vec3 → Vec3 → List Vec3 × RNG
  | 0, rng, _, _ => ([], rng)
  | n + 1, rng, lastPos, moveVec =>
    let r1 := random_range rng minMove maxMove
    let r2 := random_range r1.2 minMove maxMove
    let r3 := random_range r2.2 minMove maxMove
    let mv := eulerRotate r1.1 r2.1 r3.1 moveVec
    let newPos := lastPos + mv
    let rest := walkAux minMove maxMove n r3.2 newPos mv
    (newPos :: rest.1, rest.2)

/-- `generate_walking_verts` (lines 81-113): clamp the length, emit the
origin, then run the walk loop `pathLength - 1` times starting from
`lastPos = (0,0,0)` and `moveVec = (0,0,0.1)`. -/
noncomputable def generate_walking_verts (minMove maxMove : ℝ) (rng : RNG)
    (pathLength : ℤ) : List Vec3 × RNG :=
  let w := walkAux minMove maxMove (clampLen pathLength - 1).toNat rng ⟨0, 0, 0⟩ ⟨0, 0, 0.1⟩
  (⟨0, 0, 0⟩ :: w.1, w.2)

/-- Modelled from the spec: the walk loop as the spec's words describe it,
identical to `walkAux` except that the heading is rotated with the
*intrinsic* X-Y-Z composition (`eulerRotateIntrinsicXYZ`). -/
noncomputable def specWalkAux (minMove maxMove : ℝ) : ℕ → RNG → Vec3 → Vec3 → List Vec3 × RNG
  | 0, rng, _, _ => ([], rng)
  | n + 1, rng, lastPos, moveVec =>
    let r1 := random_range rng minMove maxMove
    let r2 := random_range r1.2 minMove maxMove
    let r3 := random_range r2.2 minMove maxMove
    let mv := eulerRotateIntrinsicXYZ r1.1 r2.1 r3.1 moveVec
    let newPos := lastPos + mv
    let rest := specWalkAux minMove maxMove n r3.2 newPos mv
    (newPos :: rest.1, rest.2)

/-- Modelled from the spec: `generate_walking_verts` with the spec's
intrinsic rotation composition in place of Blender's extrinsic one. -/
noncomputable def spec_generate_walking_verts (minMove maxMove : ℝ) (rng : RNG)
    (pathLength : ℤ) : List Vec3 × RNG :=
  let w := specWalkAux minMove maxMove (clampLen pathLength - 1).toNat rng ⟨0, 0, 0⟩ ⟨0, 0, 0.1⟩
  (⟨0, 0, 0⟩ :: w.1, w.2)

/-- The angle produced by `random_range min max` from the uniform draw `u`. -/
def angleOf (minMove maxMove u : ℝ) : ℝ := minMove + u * (maxMove - minMove)

/-- One walk iteration's rotation of the heading: the Euler rotation whose
three angles are produced by `random_range` from the three consecutive
draws `start`, `start + 1`, `start + 2` of the uniform stream. -/
noncomputable def stepRot (minMove maxMove : ℝ) (stream : ℕ → ℝ) (start : ℕ) (v : Vec3) :
    Vec3 :=
  eulerRotate (angleOf minMove maxMove (stream start))
    (angleOf minMove maxMove (stream (start + 1)))
    (angleOf minMove maxMove (stream (start + 2))) v

/-- The heading (`moveVec`) after `n` walk iterations, starting from
heading `v` with the PRNG cursor at `start`: each iteration rotates the
heading by `stepRot` and consumes three draws. -/
noncomputable def hdFrom (minMove maxMove : ℝ) (stream : ℕ → ℝ) : Vec3 → ℕ → ℕ → Vec3
  | v, _, 0 => v
  | v, start, n + 1 =>
    hdFrom minMove maxMove stream (stepRot minMove maxMove stream start v) (start + 3) n

/-- The position (`lastPos`) after `n` walk iterations, starting from
position `p` and heading `v` with the PRNG cursor at `start`: each
iteration rotates the heading by `stepRot` and adds the rotated heading
to the position. -/
noncomputable def posFrom (minMove maxMove : ℝ) (stream : ℕ → ℝ) : Vec3 → Vec3 → ℕ → ℕ → Vec3
  | p, _, _, 0 => p
  | p, v, start, n + 1 =>
    posFrom minMove maxMove stream (p + stepRot minMove maxMove stream start v)
      (stepRot minMove maxMove stream start v) (start + 3) n

/-- Squared Euclidean magnitude of a `Vec3`. -/
def normSq3 (v : Vec3) : ℝ := v.x ^ 2 + v.y ^ 2 + v.z ^ 2

/-- Euclidean magnitude of a `Vec3`. -/
noncomputable def norm3 (v : Vec3) : ℝ := Real.sqrt (normSq3 v)

/-- The index-assignment loop of `generate_curve` (lines 135-137):
`for i, coord in enumerate(verts): polyline.points[i].co = (x, y, z, 1)`,
starting at index `i`. -/
def setPoints (pts : List Vec4) (verts : List Vec3) (i : ℕ) : List Vec4 :=
  match verts with
  | [] => pts
  | v :: vs => setPoints (pts.set i (v.x, v.y, v.z, 1)) vs (i + 1)

/-- The control points of the spline built by `generate_curve` (lines
133-137): a fresh NURBS spline already holds one point, `points.add(len(verts))`
adds `len(verts)` more (all at the host's default value `defaultco`), and
the loop then assigns the first `len(verts)` of them. -/
def splinePoints (verts : List Vec3) (defaultco : Vec4) : List Vec4 :=
  setPoints (List.replicate (1 + verts.length) defaultco) verts 0

/-- A scene object (`bpy.data.objects` entry): identity handle, name,
parent (by id), selection flag, and its spline control points (empty for
the grouping empty). -/
structure Obj where
  id : ℕ
  name : String
  parent : Option ℕ
  selected : Bool
  pts : List Vec4

/-- The scene / object database: the objects in creation order, the next
fresh object handle, and the active object. -/
structure Scene where
  objs : List Obj
  nextId : ℕ
  active : Option ℕ

/-- Whether an object is named "RandomWalkingSplines" (the grouping empty). -/
def nameIsContainer (o : Obj) : Bool := o.name == "RandomWalkingSplines"

/-- `bpy.data.objects.get("RandomWalkingSplines")` (line 176). -/
def containerOf (s : Scene) : Option Obj := s.objs.find? nameIsContainer

/-- `bpy.ops.object.select_all(action="DESELECT")` applied to one object. -/
def deselect (o : Obj) : Obj := { o with selected := false }

/-- `child.select = True` for each child of the empty (lines 187-188):
select `o` when its parent is the container `cid`. -/
def selectChildOf (cid : ℕ) (o : Obj) : Obj :=
  if o.parent = some cid then { o with selected := true } else o

/-- `empty.select = True` (line 193): select `o` when it is object `cid`. -/
def selectIfId (cid : ℕ) (o : Obj) : Obj :=
  if o.id = cid then { o with selected := true } else o

/-- `curve.parent = empty` (line 203): reparent object `oid` under `cid`. -/
def reparentIfId (oid cid : ℕ) (o : Obj) : Obj :=
  if o.id = oid then { o with parent := some cid } else o

/-- Lines 185-190: deselect every object, select the children of the
container `cid`, and delete the selected objects. -/
def clearedObjs (cid : ℕ) (l : List Obj) : List Obj :=
  ((l.map deselect).map (selectChildOf cid)).filter fun o => !o.selected

/-- Lines 180-181: the fresh empty created (unselected, unparented, no
geometry) when no "RandomWalkingSplines" object exists. -/
def freshEmpty (nid : ℕ) : Obj :=
  { id := nid, name := "RandomWalkingSplines", parent := none, selected := false, pts := [] }

/-- The objects of `s` whose parent is the object `cid` (`empty.children`). -/
def childrenOf (s : Scene) (cid : ℕ) : List Obj :=
  s.objs.filter fun o => o.parent == some cid

/-- `generate_curve` (lines 117-160), host-geometry parts elided: generate
the walk vertices, build the spline control points, create and link a new
selected curve object named after `curveCount`.  Returns the new object's
handle and the generated vertex path, the new scene, and the PRNG. -/
noncomputable def generate_curve (minMove maxMove : ℝ) (pathLength : ℤ) (defaultco : Vec4)
    (rng : RNG) (curveCount : ℕ) (s : Scene) : (ℕ × List Vec3) × Scene × RNG :=
  let w := generate_walking_verts minMove maxMove rng pathLength
  let obj : Obj :=
    { id := s.nextId
      name := "random-walking-curve-" ++ toString curveCount
      parent := none
      selected := true
      pts := splinePoints w.1 defaultco }
  ((s.nextId, w.1), ⟨s.objs ++ [obj], s.nextId + 1, s.active⟩, w.2)

/-- Lines 176-190 of `execute`: look the empty up by name; if absent,
create and link a fresh one; if present, deselect everything, select its
children and delete them.  Returns the container's handle and the scene. -/
def clearOrCreate (s : Scene) : ℕ × Scene :=
  match containerOf s with
  | none =>
    (s.nextId, ⟨s.objs ++ [freshEmpty s.nextId], s.nextId + 1, s.active⟩)
  | some e =>
    (e.id, ⟨clearedObjs e.id s.objs, s.nextId, s.active⟩)

/-- The generation loop of `execute` (lines 199-203): `numCurves` times,
call `generate_curve` (which links the new object) and parent the new
object under the container.  Also returns the list of generated vertex
paths in order (the batch). -/
noncomputable def genLoop (minMove maxMove : ℝ) (pathLength : ℤ) (defaultco : Vec4)
    (cid : ℕ) : ℕ → ℕ → RNG → Scene → Scene × RNG × List (List Vec3)
  | 0, _, rng, s => (s, rng, [])
  | n + 1, curveCount, rng, s =>
    let g := generate_curve minMove maxMove pathLength defaultco rng curveCount s
    let s2 : Scene :=
      ⟨g.2.1.objs.map (reparentIfId g.1.1 cid), g.2.1.nextId, g.2.1.active⟩
    let r := genLoop minMove maxMove pathLength defaultco cid n (curveCount + 1) g.2.2 s2
    (r.1, r.2.1, g.1.2 :: r.2.2)

/-- `execute` (lines 164-206): discard the operator's previous PRNG and
construct a fresh one seeded with `randomSeed` (lines 169-170, modelled by
selecting the stream `mtStream randomSeed` with the cursor at 0); find or
create the "RandomWalkingSplines" empty, deleting its children if it
already exists; select it and make it active; then generate `numCurves`
curves parented under it.  Returns the final scene, the operator state
(the consumed PRNG), and the batch of generated vertex paths. -/
noncomputable def execute (mtStream : ℕ → ℕ → ℝ) (randomSeed numCurves : ℕ)
    (pathLength : ℤ) (minMove maxMove : ℝ) (defaultco : Vec4) (_op : OpState)
    (s : Scene) : Scene × OpState × List (List Vec3) :=
  let prng : RNG := ⟨mtStream randomSeed, 0⟩
  let cs := clearOrCreate s
  let s2 : Scene :=
    ⟨cs.2.objs.map (selectIfId cs.1), cs.2.nextId, some cs.1⟩
  let r := genLoop minMove maxMove pathLength defaultco cs.1 numCurves 0 prng s2
  (r.1, ⟨r.2.1⟩, r.2.2)

/-- The batch of vertex paths `execute` generates, in isolation from the
scene: `numCurves` successive calls of `generate_walking_verts` threading
one PRNG. -/
noncomputable def pureBatch (minMove maxMove : ℝ) (pathLength : ℤ) :
    ℕ → RNG → List (List Vec3) × RNG
  | 0, rng => ([], rng)
  | n + 1, rng =>
    let w := generate_walking_verts minMove maxMove rng pathLength
    let r := pureBatch minMove maxMove pathLength n w.2
    (w.1 :: r.1, r.2)

/-- The curve objects created by `genLoop`, starting at name counter
`curveCount` and handle `base`, all parented under `cid`. -/
noncomputable def curvesList (minMove maxMove : ℝ) (pathLength : ℤ) (defaultco : Vec4)
    (cid : ℕ) : ℕ → ℕ → RNG → ℕ → List Obj
  | 0, _, _, _ => []
  | n + 1, curveCount, rng, base =>
    { id := base
      name := "random-walking-curve-" ++ toString curveCount
      parent := some cid
      selected := true
      pts := splinePoints (generate_walking_verts minMove maxMove rng pathLength).1 defaultco }
      :: curvesList minMove maxMove pathLength defaultco cid n (curveCount + 1)
          (generate_walking_verts minMove maxMove rng pathLength).2 (base + 1)

/-- Scene well-formedness: every object's handle is below `nextId`, every
parent reference is below `nextId`, and no object is its own parent. -/
def WF (s : Scene) : Prop :=
  ∀ o ∈ s.objs, o.id < s.nextId ∧ (∀ p, o.parent = some p → p < s.nextId) ∧
    o.parent ≠ some o.id

/-- A concrete uniform stream used to exhibit a counterexample: draws
`1, 0, 1, 1, 1, ...`. -/
noncomputable def cexStream : ℕ → ℝ := fun n => if n = 1 then 0 else 1

/-
Basic lemmas about the walk.
-/

theorem Vec3.add_def (a b : Vec3) : a + b = ⟨a.x + b.x, a.y + b.y, a.z + b.z⟩ := rfl

theorem Vec3.sub_def (a b : Vec3) : a - b = ⟨a.x - b.x, a.y - b.y, a.z - b.z⟩ := rfl

theorem walkAux_length (minMove maxMove : ℝ) (n : ℕ) :
    ∀ (rng : RNG) (p v : Vec3), ((walkAux minMove maxMove n rng p v).1).length = n := by
  induction n with
  | zero => intro rng p v; rfl
  | succ n ih => intro rng p v; simp [walkAux, ih]

theorem generate_walking_verts_length (minMove maxMove : ℝ) (rng : RNG) (pathLength : ℤ) :
    (((generate_walking_verts minMove maxMove rng pathLength).1).length : ℤ) =
      max pathLength 1 := by
  simp only [generate_walking_verts, List.length_cons, walkAux_length]
  unfold clampLen
  split <;> push_cast <;> omega

theorem generate_walking_verts_head (minMove maxMove : ℝ) (rng : RNG) (pathLength : ℤ) :
    ((generate_walking_verts minMove maxMove rng pathLength).1).head? =
      some ⟨0, 0, 0⟩ := rfl

theorem posFrom_succ (minMove maxMove : ℝ) (stream : ℕ → ℝ) (n : ℕ) :
    ∀ (p v : Vec3) (start : ℕ),
      posFrom minMove maxMove stream p v start (n + 1) =
        posFrom minMove maxMove stream p v start n +
          hdFrom minMove maxMove stream v start (n + 1) := by
  induction n with
  | zero => intro p v start; rfl
  | succ n ih =>
    intro p v start
    show posFrom minMove maxMove stream (p + stepRot minMove maxMove stream start v)
        (stepRot minMove maxMove stream start v) (start + 3) (n + 1) = _
    rw [ih]
    rfl

theorem walkAux_eq (minMove maxMove : ℝ) (n : ℕ) :
    ∀ (stream : ℕ → ℝ) (start : ℕ) (p v : Vec3),
      walkAux minMove maxMove n ⟨stream, start⟩ p v =
        ((List.range n).map fun k => posFrom minMove maxMove stream p v start (k + 1),
          (⟨stream, start + 3 * n⟩ : RNG)) := by
  induction n with
  | zero => intro stream start p v; simp [walkAux]
  | succ n ih =>
    intro stream start p v
    have e2 : start + 1 + 1 = start + 2 := by ring
    have e3 : start + 1 + 1 + 1 = start + 3 := by ring
    have e4 : start + 3 * (n + 1) = start + 3 + 3 * n := by ring
    have hmv : eulerRotate (minMove + stream start * (maxMove - minMove))
        (minMove + stream (start + 1) * (maxMove - minMove))
        (minMove + stream (start + 1 + 1) * (maxMove - minMove)) v
        = stepRot minMove maxMove stream start v := by
      simp only [stepRot, angleOf, e2]
    simp only [walkAux, random_range, RNG.next, RNG.advance, e2, e3, hmv, ih, e4,
      List.range_succ_eq_map, List.map_cons, List.map_map, Prod.mk.injEq, and_true]
    exact congrArg₂ List.cons rfl rfl

theorem generate_walking_verts_get (minMove maxMove : ℝ) (stream : ℕ → ℝ) (start : ℕ)
    (pathLength : ℤ) (n : ℕ) (h : (n : ℤ) < max pathLength 1) :
    ((generate_walking_verts minMove maxMove ⟨stream, start⟩ pathLength).1)[n]? =
      some (posFrom minMove maxMove stream ⟨0, 0, 0⟩ ⟨0, 0, 0.1⟩ start n) := by
  have hN : n < 1 + (clampLen pathLength - 1).toNat := by
    unfold clampLen; split <;> omega
  unfold generate_walking_verts
  rw [walkAux_eq]
  match n, hN with
  | 0, _ => simp [posFrom]
  | k + 1, hN =>
    have hk : k < (clampLen pathLength - 1).toNat := by omega
    simp only [List.getElem?_cons_succ, List.getElem?_map, List.getElem?_range hk,
      Option.map_some']

/-
Norm preservation by the rotations.
-/

theorem normSq3_rotX (a : ℝ) (v : Vec3) : normSq3 (rotX a v) = normSq3 v := by
  simp only [normSq3, rotX]
  linear_combination (v.y ^ 2 + v.z ^ 2) * Real.sin_sq_add_cos_sq a

theorem normSq3_rotY (a : ℝ) (v : Vec3) : normSq3 (rotY a v) = normSq3 v := by
  simp only [normSq3, rotY]
  linear_combination (v.x ^ 2 + v.z ^ 2) * Real.sin_sq_add_cos_sq a

theorem normSq3_rotZ (a : ℝ) (v : Vec3) : normSq3 (rotZ a v) = normSq3 v := by
  simp only [normSq3, rotZ]
  linear_combination (v.x ^ 2 + v.y ^ 2) * Real.sin_sq_add_cos_sq a

theorem normSq3_eulerRotate (ex ey ez : ℝ) (v : Vec3) :
    normSq3 (eulerRotate ex ey ez v) = normSq3 v := by
  unfold eulerRotate
  rw [normSq3_rotZ, normSq3_rotY, normSq3_rotX]

theorem normSq3_stepRot (minMove maxMove : ℝ) (stream : ℕ → ℝ) (start : ℕ) (v : Vec3) :
    normSq3 (stepRot minMove maxMove stream start v) = normSq3 v :=
  normSq3_eulerRotate _ _ _ v

theorem normSq3_hdFrom (minMove maxMove : ℝ) (stream : ℕ → ℝ) (n : ℕ) :
    ∀ (v : Vec3) (start : ℕ),
      normSq3 (hdFrom minMove maxMove stream v start n) = normSq3 v := by
  induction n with
  | zero => intro v start; rfl
  | succ n ih =>
    intro v start
    show normSq3 (hdFrom minMove maxMove stream
      (stepRot minMove maxMove stream start v) (start + 3) n) = _
    rw [ih, normSq3_stepRot]

theorem vec3_add_sub_self (p h : Vec3) : (p + h) - p = h := by
  ext <;> simp [Vec3.add_def, Vec3.sub_def]

theorem norm3_init_heading : norm3 (⟨0, 0, 0.1⟩ : Vec3) = 0.1 := by
  have h1 : normSq3 (⟨0, 0, 0.1⟩ : Vec3) = (0.1 : ℝ) ^ 2 := by
    norm_num [normSq3]
  rw [norm3, h1]
  exact Real.sqrt_sq (by norm_num)

/-
The batch produced by `execute`, seen apart from the scene.
-/

theorem genLoop_rng (minMove maxMove : ℝ) (pathLength : ℤ) (defaultco : Vec4) (cid : ℕ)
    (n : ℕ) :
    ∀ (curveCount : ℕ) (rng : RNG) (s : Scene),
      (genLoop minMove maxMove pathLength defaultco cid n curveCount rng s).2.1 =
        (pureBatch minMove maxMove pathLength n rng).2 := by
  induction n with
  | zero => intro curveCount rng s; rfl
  | succ n ih => intro curveCount rng s; simp only [genLoop, pureBatch, generate_curve, ih]

theorem genLoop_batch (minMove maxMove : ℝ) (pathLength : ℤ) (defaultco : Vec4) (cid : ℕ)
    (n : ℕ) :
    ∀ (curveCount : ℕ) (rng : RNG) (s : Scene),
      (genLoop minMove maxMove pathLength defaultco cid n curveCount rng s).2.2 =
        (pureBatch minMove maxMove pathLength n rng).1 := by
  induction n with
  | zero => intro curveCount rng s; rfl
  | succ n ih => intro curveCount rng s; simp only [genLoop, pureBatch, generate_curve, ih]

theorem execute_batch (mtStream : ℕ → ℕ → ℝ) (randomSeed numCurves : ℕ) (pathLength : ℤ)
    (minMove maxMove : ℝ) (defaultco : Vec4) (op : OpState) (s : Scene) :
    (execute mtStream randomSeed numCurves pathLength minMove maxMove defaultco op s).2.2 =
      (pureBatch minMove maxMove pathLength numCurves ⟨mtStream randomSeed, 0⟩).1 := by
  simp only [execute, genLoop_batch]

theorem execute_rng (mtStream : ℕ → ℕ → ℝ) (randomSeed numCurves : ℕ) (pathLength : ℤ)
    (minMove maxMove : ℝ) (defaultco : Vec4) (op : OpState) (s : Scene) :
    (execute mtStream randomSeed numCurves pathLength minMove maxMove defaultco op s).2.1 =
      ⟨(pureBatch minMove maxMove pathLength numCurves ⟨mtStream randomSeed, 0⟩).2⟩ := by
  simp only [execute, genLoop_rng]

theorem pureBatch_heads (minMove maxMove : ℝ) (pathLength : ℤ) (n : ℕ) :
    ∀ rng : RNG,
      ((pureBatch minMove maxMove pathLength n rng).1).map (fun p => p.head?) =
        List.replicate n (some (⟨0, 0, 0⟩ : Vec3)) := by
  induction n with
  | zero => intro rng; rfl
  | succ n ih =>
    intro rng
    simp only [pureBatch, List.map_cons, ih, generate_walking_verts_head,
      List.replicate_succ]

/-
The spline point list built by `generate_curve`.
-/

theorem setPoints_spec (verts : List Vec3) :
    ∀ (A : List Vec4) (d : Vec4),
      setPoints (A ++ List.replicate (verts.length + 1) d) verts A.length =
        A ++ (verts.map fun v => (v.x, v.y, v.z, (1 : ℝ))) ++ [d] := by
  induction verts with
  | nil => intro A d; simp [setPoints]
  | cons v vs ih =>
    intro A d
    have hset : (A ++ List.replicate ((v :: vs).length + 1) d).set A.length
        (v.x, v.y, v.z, (1 : ℝ)) =
        (A ++ [(v.x, v.y, v.z, (1 : ℝ))]) ++ List.replicate (vs.length + 1) d := by
      rw [List.set_append_right _ _ (le_refl A.length)]
      simp [List.replicate_succ]
    show setPoints ((A ++ List.replicate ((v :: vs).length + 1) d).set A.length
      (v.x, v.y, v.z, 1)) vs (A.length + 1) = _
    rw [hset]
    have hlen : A.length + 1 = (A ++ [(v.x, v.y, v.z, (1 : ℝ))]).length := by simp
    rw [hlen, ih (A ++ [(v.x, v.y, v.z, (1 : ℝ))]) d]
    simp

theorem splinePoints_eq (verts : List Vec3) (d : Vec4) :
    splinePoints verts d = (verts.map fun v => (v.x, v.y, v.z, (1 : ℝ))) ++ [d] := by
  have h := setPoints_spec verts [] d
  simpa [splinePoints, Nat.add_comm] using h

theorem splinePoints_length (verts : List Vec3) (d : Vec4) :
    (splinePoints verts d).length = verts.length + 1 := by
  simp [splinePoints_eq]

theorem splinePoints_getLast (verts : List Vec3) (d : Vec4) :
    (splinePoints verts d).getLast? = some d := by
  rw [splinePoints_eq]
  exact List.getLast?_concat _

/-
Objects, names and the scene pipeline of `execute`.
-/

theorem curve_name_ne (x : String) :
    "random-walking-curve-" ++ x ≠ "RandomWalkingSplines" := by
  intro h
  have h2 : ("random-walking-curve-" ++ x).length =
      ("RandomWalkingSplines" : String).length := by rw [h]
  rw [String.length_append] at h2
  have e1 : ("random-walking-curve-" : String).length = 21 := rfl
  have e2 : ("RandomWalkingSplines" : String).length = 20 := rfl
  omega

theorem name_deselect (o : Obj) : (deselect o).name = o.name := rfl

theorem name_selectChildOf (cid : ℕ) (o : Obj) : (selectChildOf cid o).name = o.name := by
  unfold selectChildOf; split <;> rfl

theorem name_selectIfId (cid : ℕ) (o : Obj) : (selectIfId cid o).name = o.name := by
  unfold selectIfId; split <;> rfl

theorem id_deselect (o : Obj) : (deselect o).id = o.id := rfl

theorem id_selectChildOf (cid : ℕ) (o : Obj) : (selectChildOf cid o).id = o.id := by
  unfold selectChildOf; split <;> rfl

theorem id_selectIfId (cid : ℕ) (o : Obj) : (selectIfId cid o).id = o.id := by
  unfold selectIfId; split <;> rfl

theorem parent_deselect (o : Obj) : (deselect o).parent = o.parent := rfl

theorem parent_selectChildOf (cid : ℕ) (o : Obj) :
    (selectChildOf cid o).parent = o.parent := by
  unfold selectChildOf; split <;> rfl

theorem parent_selectIfId (cid : ℕ) (o : Obj) : (selectIfId cid o).parent = o.parent := by
  unfold selectIfId; split <;> rfl

theorem find?_map_of_name_eq (f : Obj → Obj) (hf : ∀ o, (f o).name = o.name)
    (l : List Obj) :
    (l.map f).find? nameIsContainer = (l.find? nameIsContainer).map f := by
  induction l with
  | nil => rfl
  | cons a l ih =>
    by_cases h : nameIsContainer a
    · have h2 : nameIsContainer (f a) = true := by
        unfold nameIsContainer at h ⊢; rw [hf]; exact h
      simp [List.find?_cons_of_pos _ h2, List.find?_cons_of_pos _ h]
    · have h2 : ¬nameIsContainer (f a) = true := by
        unfold nameIsContainer at h ⊢; rw [hf]; exact h
      simp [List.find?_cons_of_neg _ h2, List.find?_cons_of_neg _ h, ih]

theorem clear_find (cid : ℕ) (l : List Obj) :
    ∀ e : Obj, l.find? nameIsContainer = some e → e.parent ≠ some cid →
      (clearedObjs cid l).find? nameIsContainer = some { e with selected := false } := by
  unfold clearedObjs
  induction l with
  | nil => intro e h; simp at h
  | cons a l ih =>
    intro e h hpar
    by_cases ha : nameIsContainer a
    · rw [List.find?_cons_of_pos _ ha] at h
      have hae : a = e := by injection h
      subst hae
      have hsel : selectChildOf cid (deselect a) = { a with selected := false } := by
        unfold selectChildOf deselect
        simp [hpar]
      have hna : nameIsContainer ({ a with selected := false } : Obj) = true := ha
      simp only [List.map_cons, hsel, List.filter_cons]
      simp [List.find?_cons_of_pos _ hna]
    · rw [List.find?_cons_of_neg _ ha] at h
      have hx : nameIsContainer (selectChildOf cid (deselect a)) = nameIsContainer a := by
        unfold nameIsContainer
        rw [name_selectChildOf, name_deselect]
      simp only [List.map_cons, List.filter_cons]
      split
      · rw [List.find?_cons_of_neg]
        · exact ih e h hpar
        · rw [hx]; exact ha
      · exact ih e h hpar

theorem clear_no_children (cid : ℕ) (l : List Obj) :
    ∀ o ∈ clearedObjs cid l, o.parent ≠ some cid := by
  unfold clearedObjs
  intro o ho
  rw [List.mem_filter] at ho
  obtain ⟨hmem, hsel⟩ := ho
  rw [List.mem_map] at hmem
  obtain ⟨x, _, rfl⟩ := hmem
  unfold selectChildOf at hsel ⊢
  by_cases hp : x.parent = some cid
  · rw [if_pos hp] at hsel; simp at hsel
  · rw [if_neg hp] at hsel ⊢; exact hp

theorem mem_clear (cid : ℕ) (l : List Obj) (o : Obj)
    (ho : o ∈ clearedObjs cid l) :
    ∃ b ∈ l, o.id = b.id ∧ o.parent = b.parent ∧ o.name = b.name := by
  unfold clearedObjs at ho
  rw [List.mem_filter] at ho
  obtain ⟨hmem, _⟩ := ho
  rw [List.mem_map] at hmem
  obtain ⟨x, hx, rfl⟩ := hmem
  rw [List.mem_map] at hx
  obtain ⟨b, hb, rfl⟩ := hx
  exact ⟨b, hb, by rw [id_selectChildOf, id_deselect], by
    rw [parent_selectChildOf, parent_deselect], by rw [name_selectChildOf, name_deselect]⟩

theorem reparent_append (oid cid : ℕ) (l : List Obj) (o : Obj) (hoid : o.id = oid)
    (h : ∀ b ∈ l, b.id < oid) :
    (l ++ [o]).map (reparentIfId oid cid) = l ++ [{ o with parent := some cid }] := by
  rw [List.map_append]
  congr 1
  · conv_rhs => rw [← List.map_id l]
    apply List.map_congr_left
    intro a ha
    unfold reparentIfId
    rw [if_neg (Nat.ne_of_lt (h a ha))]
    rfl
  · simp [reparentIfId, hoid]

theorem curvesList_length (minMove maxMove : ℝ) (pathLength : ℤ) (defaultco : Vec4)
    (cid : ℕ) (n : ℕ) :
    ∀ (curveCount : ℕ) (rng : RNG) (base : ℕ),
      (curvesList minMove maxMove pathLength defaultco cid n curveCount rng base).length = n := by
  induction n with
  | zero => intro curveCount rng base; rfl
  | succ n ih => intro curveCount rng base; simp only [curvesList, List.length_cons, ih]

theorem curvesList_mem (minMove maxMove : ℝ) (pathLength : ℤ) (defaultco : Vec4)
    (cid : ℕ) (n : ℕ) :
    ∀ (curveCount : ℕ) (rng : RNG) (base : ℕ) (o : Obj),
      o ∈ curvesList minMove maxMove pathLength defaultco cid n curveCount rng base →
        o.parent = some cid ∧ base ≤ o.id ∧ o.id < base + n ∧
          o.name ≠ "RandomWalkingSplines" := by
  induction n with
  | zero => intro curveCount rng base o ho; simp [curvesList] at ho
  | succ n ih =>
    intro curveCount rng base o ho
    simp only [curvesList, List.mem_cons] at ho
    rcases ho with rfl | ho
    · refine ⟨rfl, le_refl _, ?_, curve_name_ne _⟩
      show base < base + (n + 1)
      omega
    · obtain ⟨h1, h2, h3, h4⟩ := ih (curveCount + 1)
        (generate_walking_verts minMove maxMove rng pathLength).2 (base + 1) o ho
      exact ⟨h1, by omega, by omega, h4⟩

theorem genLoop_objs (minMove maxMove : ℝ) (pathLength : ℤ) (defaultco : Vec4) (cid : ℕ)
    (n : ℕ) :
    ∀ (curveCount : ℕ) (rng : RNG) (s : Scene), (∀ o ∈ s.objs, o.id < s.nextId) →
      (genLoop minMove maxMove pathLength defaultco cid n curveCount rng s).1 =
        ⟨s.objs ++ curvesList minMove maxMove pathLength defaultco cid n curveCount rng s.nextId,
          s.nextId + n, s.active⟩ := by
  induction n with
  | zero =>
    intro curveCount rng s _
    obtain ⟨objs, nid, act⟩ := s
    simp [genLoop, curvesList]
  | succ n ih =>
    intro curveCount rng s h
    simp only [genLoop, generate_curve]
    rw [reparent_append s.nextId cid s.objs _ rfl (fun b hb => h b hb)]
    rw [ih (curveCount + 1) (generate_walking_verts minMove maxMove rng pathLength).2
      ⟨s.objs ++ [_], s.nextId + 1, s.active⟩ ?_]
    · simp only [curvesList, List.append_assoc, List.singleton_append, List.cons_append,
        List.nil_append]
      congr 1
      omega
    · intro o ho
      rcases List.mem_append.mp ho with h1 | h1
      · exact Nat.lt_succ_of_lt (h o h1)
      · rcases List.mem_singleton.mp h1 with rfl
        exact Nat.lt_succ_self _

theorem execute_scene_some (mtStream : ℕ → ℕ → ℝ) (seed n : ℕ) (pl : ℤ) (mW MW : ℝ)
    (d : Vec4) (op : OpState) (s : Scene) (e : Obj)
    (hfind : containerOf s = some e) (hids : ∀ o ∈ s.objs, o.id < s.nextId) :
    (execute mtStream seed n pl mW MW d op s).1 =
      ⟨(clearedObjs e.id s.objs).map (selectIfId e.id) ++
          curvesList mW MW pl d e.id n 0 ⟨mtStream seed, 0⟩ s.nextId,
        s.nextId + n, some e.id⟩ := by
  have h2 : ∀ o ∈ (clearedObjs e.id s.objs).map (selectIfId e.id), o.id < s.nextId := by
    intro o ho
    rw [List.mem_map] at ho
    obtain ⟨b, hb, rfl⟩ := ho
    rw [id_selectIfId]
    obtain ⟨c, hc, hid, -, -⟩ := mem_clear e.id s.objs b hb
    rw [hid]
    exact hids c hc
  unfold execute clearOrCreate
  simp only [hfind]
  rw [genLoop_objs mW MW pl d e.id n 0 ⟨mtStream seed, 0⟩ _ h2]

theorem execute_scene_none (mtStream : ℕ → ℕ → ℝ) (seed n : ℕ) (pl : ℤ) (mW MW : ℝ)
    (d : Vec4) (op : OpState) (s : Scene)
    (hfind : containerOf s = none) (hids : ∀ o ∈ s.objs, o.id < s.nextId) :
    (execute mtStream seed n pl mW MW d op s).1 =
      ⟨s.objs ++ [{ freshEmpty s.nextId with selected := true }] ++
          curvesList mW MW pl d s.nextId n 0 ⟨mtStream seed, 0⟩ (s.nextId + 1),
        s.nextId + 1 + n, some s.nextId⟩ := by
  have hmap : (s.objs ++ [freshEmpty s.nextId]).map (selectIfId s.nextId) =
      s.objs ++ [{ freshEmpty s.nextId with selected := true }] := by
    rw [List.map_append]
    congr 1
    · conv_rhs => rw [← List.map_id s.objs]
      apply List.map_congr_left
      intro a ha
      unfold selectIfId
      rw [if_neg (Nat.ne_of_lt (hids a ha))]
      rfl
    · simp [selectIfId, freshEmpty]
  have h2 : ∀ o ∈ s.objs ++ [{ freshEmpty s.nextId with selected := true }],
      o.id < s.nextId + 1 := by
    intro o ho
    rcases List.mem_append.mp ho with ho | ho
    · exact Nat.lt_succ_of_lt (hids o ho)
    · rcases List.mem_singleton.mp ho with rfl
      exact Nat.lt_succ_self _
  unfold execute clearOrCreate
  simp only [hfind, hmap]
  rw [genLoop_objs mW MW pl d s.nextId n 0 ⟨mtStream seed, 0⟩ _ h2]

theorem execute_container_some (mtStream : ℕ → ℕ → ℝ) (seed n : ℕ) (pl : ℤ) (mW MW : ℝ)
    (d : Vec4) (op : OpState) (s : Scene) (e : Obj)
    (hfind : containerOf s = some e) (hids : ∀ o ∈ s.objs, o.id < s.nextId)
    (hpar : e.parent ≠ some e.id) :
    containerOf (execute mtStream seed n pl mW MW d op s).1 =
      some { e with selected := true } := by
  rw [execute_scene_some mtStream seed n pl mW MW d op s e hfind hids]
  unfold containerOf
  show ((clearedObjs e.id s.objs).map (selectIfId e.id) ++
    curvesList mW MW pl d e.id n 0 ⟨mtStream seed, 0⟩ s.nextId).find? nameIsContainer = _
  rw [List.find?_append, find?_map_of_name_eq (selectIfId e.id) (name_selectIfId e.id),
    clear_find e.id s.objs e hfind hpar]
  simp [selectIfId]

theorem execute_container_none (mtStream : ℕ → ℕ → ℝ) (seed n : ℕ) (pl : ℤ) (mW MW : ℝ)
    (d : Vec4) (op : OpState) (s : Scene)
    (hfind : containerOf s = none) (hids : ∀ o ∈ s.objs, o.id < s.nextId) :
    containerOf (execute mtStream seed n pl mW MW d op s).1 =
      some { freshEmpty s.nextId with selected := true } := by
  rw [execute_scene_none mtStream seed n pl mW MW d op s hfind hids]
  unfold containerOf at hfind ⊢
  show ((s.objs ++ [{ freshEmpty s.nextId with selected := true }]) ++
    curvesList mW MW pl d s.nextId n 0 ⟨mtStream seed, 0⟩ (s.nextId + 1)).find?
      nameIsContainer = _
  rw [List.find?_append, List.find?_append, hfind]
  simp [nameIsContainer, freshEmpty]

theorem execute_children_some (mtStream : ℕ → ℕ → ℝ) (seed n : ℕ) (pl : ℤ) (mW MW : ℝ)
    (d : Vec4) (op : OpState) (s : Scene) (e : Obj)
    (hfind : containerOf s = some e) (hids : ∀ o ∈ s.objs, o.id < s.nextId) :
    childrenOf (execute mtStream seed n pl mW MW d op s).1 e.id =
      curvesList mW MW pl d e.id n 0 ⟨mtStream seed, 0⟩ s.nextId := by
  rw [execute_scene_some mtStream seed n pl mW MW d op s e hfind hids]
  unfold childrenOf
  show ((clearedObjs e.id s.objs).map (selectIfId e.id) ++
    curvesList mW MW pl d e.id n 0 ⟨mtStream seed, 0⟩ s.nextId).filter
      (fun o => o.parent == some e.id) = _
  rw [List.filter_append]
  have hA : ((clearedObjs e.id s.objs).map (selectIfId e.id)).filter
      (fun o => o.parent == some e.id) = [] := by
    rw [List.filter_eq_nil_iff]
    intro o ho
    rw [List.mem_map] at ho
    obtain ⟨b, hb, rfl⟩ := ho
    have hnc := clear_no_children e.id s.objs b hb
    simp [parent_selectIfId, hnc]
  have hB : (curvesList mW MW pl d e.id n 0 ⟨mtStream seed, 0⟩ s.nextId).filter
      (fun o => o.parent == some e.id) =
      curvesList mW MW pl d e.id n 0 ⟨mtStream seed, 0⟩ s.nextId := by
    rw [List.filter_eq_self]
    intro o ho
    have hp := (curvesList_mem mW MW pl d e.id n 0 ⟨mtStream seed, 0⟩ s.nextId o ho).1
    simp [hp]
  rw [hA, hB, List.nil_append]

theorem execute_WF (mtStream : ℕ → ℕ → ℝ) (seed n : ℕ) (pl : ℤ) (mW MW : ℝ)
    (d : Vec4) (op : OpState) (s : Scene) (hWF : WF s) :
    WF (execute mtStream seed n pl mW MW d op s).1 := by
  have hids : ∀ o ∈ s.objs, o.id < s.nextId := fun o ho => (hWF o ho).1
  rcases hc : containerOf s with - | e
  · rw [execute_scene_none mtStream seed n pl mW MW d op s hc hids]
    unfold WF
    intro o ho
    rcases List.mem_append.mp ho with ho | ho
    · rcases List.mem_append.mp ho with ho | ho
      · obtain ⟨h1, h2, h3⟩ := hWF o ho
        refine ⟨?_, ?_, h3⟩
        · show o.id < s.nextId + 1 + n; omega
        · intro p hp
          have := h2 p hp
          show p < s.nextId + 1 + n; omega
      · rcases List.mem_singleton.mp ho with rfl
        refine ⟨?_, ?_, ?_⟩
        · show s.nextId < s.nextId + 1 + n; omega
        · intro p hp
          simp [freshEmpty] at hp
        · simp [freshEmpty]
    · obtain ⟨h1, h2, h3, -⟩ :=
        curvesList_mem mW MW pl d s.nextId n 0 ⟨mtStream seed, 0⟩ (s.nextId + 1) o ho
      refine ⟨?_, ?_, ?_⟩
      · show o.id < s.nextId + 1 + n; omega
      · intro p hp
        rw [h1] at hp
        injection hp with hp
        show p < s.nextId + 1 + n; omega
      · rw [h1]
        intro hco
        injection hco with hco
        omega
  · have he : e ∈ s.objs := by
      unfold containerOf at hc
      exact List.mem_of_find?_eq_some hc
    obtain ⟨heid, -, hepar⟩ := hWF e he
    rw [execute_scene_some mtStream seed n pl mW MW d op s e hc hids]
    unfold WF
    intro o ho
    rcases List.mem_append.mp ho with ho | ho
    · rw [List.mem_map] at ho
      obtain ⟨b, hb, rfl⟩ := ho
      obtain ⟨c, hcmem, hid, hpar, -⟩ := mem_clear e.id s.objs b hb
      obtain ⟨h1, h2, h3⟩ := hWF c hcmem
      refine ⟨?_, ?_, ?_⟩
      · rw [id_selectIfId, hid]
        show c.id < s.nextId + n; omega
      · intro p hp
        rw [parent_selectIfId, hpar] at hp
        have := h2 p hp
        show p < s.nextId + n; omega
      · rw [parent_selectIfId, id_selectIfId, hpar, hid]
        exact h3
    · obtain ⟨h1, h2, h3, -⟩ :=
        curvesList_mem mW MW pl d e.id n 0 ⟨mtStream seed, 0⟩ s.nextId o ho
      refine ⟨?_, ?_, ?_⟩
      · show o.id < s.nextId + n; omega
      · intro p hp
        rw [h1] at hp
        injection hp with hp
        show p < s.nextId + n; omega
      · rw [h1]
        intro hco
        injection hco with hco
        omega

/-
The degenerate-wander walk.
-/

theorem stepRot_zero (stream : ℕ → ℝ) (start : ℕ) (v : Vec3) :
    stepRot 0 0 stream start v = v := by
  ext <;> simp [stepRot, angleOf, eulerRotate, rotX, rotY, rotZ]

theorem posFrom_zero_wander (stream : ℕ → ℝ) (n : ℕ) :
    ∀ (p v : Vec3) (start : ℕ),
      posFrom 0 0 stream p v start n =
        ⟨p.x + n * v.x, p.y + n * v.y, p.z + n * v.z⟩ := by
  induction n with
  | zero => intro p v start; ext <;> simp [posFrom]
  | succ n ih =>
    intro p v start
    show posFrom 0 0 stream (p + stepRot 0 0 stream start v)
      (stepRot 0 0 stream start v) (start + 3) n = _
    rw [stepRot_zero, ih]
    ext <;> simp [Vec3.add_def] <;> ring

/-
The claims.
-/

/-- C1: for every fixed seed, curveCount, pathLength, minWander and maxWander,
two independent invocations of `execute` produce bit-identical point
sequences for every path.  The batch depends only on the parameters and on
the pseudo-random stream selected by the seed: it is independent of the
operator's previous PRNG state (the PRNG is freshly constructed and seeded
at the start of each invocation, line 169-170), of the scene the invocation
runs in, and of the host's spline-point default — there is no other
entropy source. -/
theorem C1_determinism (mtStream : ℕ → ℕ → ℝ) (seed curveCount : ℕ) (pathLength : ℤ)
    (minWander maxWander : ℝ) (d₁ d₂ : Vec4) (op₁ op₂ : OpState) (s₁ s₂ : Scene) :
    (execute mtStream seed curveCount pathLength minWander maxWander d₁ op₁ s₁).2.2 =
      (execute mtStream seed curveCount pathLength minWander maxWander d₂ op₂ s₂).2.2 := by
  rw [execute_batch, execute_batch]

/-- C2: one PRNG seeded once is consumed sequentially across all paths of a
batch, never re-seeded per path: with the same seed and parameters, the
batch of a `curveCount = 2` run is the batch of the `curveCount = 1` run
followed by one more walk that starts from exactly the PRNG state the
first run left behind (it continues the same stream rather than
restarting it); in particular path index 0 is byte-identical between the
two runs. -/
theorem C2_stream_continuity (mtStream : ℕ → ℕ → ℝ) (seed : ℕ) (pathLength : ℤ)
    (minWander maxWander : ℝ) (d : Vec4) (op : OpState) (s : Scene) :
    (execute mtStream seed 2 pathLength minWander maxWander d op s).2.2 =
        (execute mtStream seed 1 pathLength minWander maxWander d op s).2.2 ++
          [(generate_walking_verts minWander maxWander
              (execute mtStream seed 1 pathLength minWander maxWander d op s).2.1.prng
              pathLength).1] ∧
      ((execute mtStream seed 2 pathLength minWander maxWander d op s).2.2)[0]? =
        ((execute mtStream seed 1 pathLength minWander maxWander d op s).2.2)[0]? := by
  constructor
  · rw [execute_batch, execute_batch, execute_rng]
    rfl
  · rw [execute_batch, execute_batch]
    rfl

/-- C4: for every pathLength, PRNG state and wander parameters, the walk
produces exactly `max pathLength 1` points: the length is clamped to a
minimum of 1, the origin is emitted first, and exactly `max pathLength 1 - 1`
further points are appended after it. -/
theorem C4_length_invariant (minWander maxWander : ℝ) (rng : RNG) (pathLength : ℤ) :
    (((generate_walking_verts minWander maxWander rng pathLength).1).length : ℤ) =
        max pathLength 1 ∧
      ∃ rest, (generate_walking_verts minWander maxWander rng pathLength).1 =
          ⟨0, 0, 0⟩ :: rest ∧ (rest.length : ℤ) = max pathLength 1 - 1 := by
  refine ⟨generate_walking_verts_length minWander maxWander rng pathLength,
    (walkAux minWander maxWander (clampLen pathLength - 1).toNat rng ⟨0, 0, 0⟩
      ⟨0, 0, 0.1⟩).1, rfl, ?_⟩
  rw [walkAux_length]
  unfold clampLen
  split <;> push_cast <;> omega

/-- C5: the first point of every walk is the origin `(0, 0, 0)` (the
initial heading is never applied before point 0 is emitted), and in every
batch produced by `execute` every path starts at the origin. -/
theorem C5_first_point (mtStream : ℕ → ℕ → ℝ) (seed curveCount : ℕ) (pathLength : ℤ)
    (minWander maxWander : ℝ) (d : Vec4) (op : OpState) (s : Scene) (rng : RNG) :
    ((generate_walking_verts minWander maxWander rng pathLength).1).head? =
        some ⟨0, 0, 0⟩ ∧
      ((execute mtStream seed curveCount pathLength minWander maxWander d op s).2.2).map
          (fun p => p.head?) = List.replicate curveCount (some ⟨0, 0, 0⟩) := by
  refine ⟨generate_walking_verts_head minWander maxWander rng pathLength, ?_⟩
  rw [execute_batch]
  exact pureBatch_heads minWander maxWander pathLength curveCount _

/-- C6 (counterexample): the walk does not use the intrinsic X-Y-Z
composition the claim describes.  With `minWander = 0`,
`maxWander = π/2`, draws `(1, 0, 1)` and `pathLength = 2`, the code's walk
(Blender's extrinsic X-then-Y-then-Z Euler rotation, second point
`(0.1, 0, 0)`) differs from the walk built with the claimed intrinsic
composition (second point `(0, -0.1, 0)`). -/
theorem C6_counterexample :
    (generate_walking_verts 0 (Real.pi / 2) ⟨cexStream, 0⟩ 2).1 ≠
      (spec_generate_walking_verts 0 (Real.pi / 2) ⟨cexStream, 0⟩ 2).1 := by
  have hcode : (generate_walking_verts 0 (Real.pi / 2) ⟨cexStream, 0⟩ 2).1 =
      [⟨0, 0, 0⟩, ⟨0.1, 0, 0⟩] := by
    norm_num [generate_walking_verts, clampLen, walkAux, random_range, RNG.next,
      RNG.advance, cexStream, eulerRotate, rotX, rotY, rotZ, Vec3.add_def,
      Real.sin_pi_div_two, Real.cos_pi_div_two, Real.sin_zero, Real.cos_zero]
  have hspec : (spec_generate_walking_verts 0 (Real.pi / 2) ⟨cexStream, 0⟩ 2).1 =
      [⟨0, 0, 0⟩, ⟨0, -0.1, 0⟩] := by
    norm_num [spec_generate_walking_verts, clampLen, specWalkAux, random_range, RNG.next,
      RNG.advance, cexStream, eulerRotateIntrinsicXYZ, rotX, rotY, rotZ, Vec3.add_def,
      Real.sin_pi_div_two, Real.cos_pi_div_two, Real.sin_zero, Real.cos_zero]
  rw [hcode, hspec]
  intro h
  have h2 : (0.1 : ℝ) = 0 := congrArg (fun l => (l.getD 1 ⟨5, 5, 5⟩).x) h
  norm_num at h2

/-- C6 (amended): at each step the walk rotates the heading vector by the
rotation composed from the three drawn per-axis angles, applied about the
fixed axes X, then Y, then Z (extrinsic Euler composition, matrix
`Rz * Ry * Rx` — equivalently intrinsic composition in axis order Z, then
Y, then X), and adds the rotated heading to the current position to
obtain the next emitted point: point `n` of the walk is `posFrom` at `n`,
the rotate-heading-then-add recurrence built from `stepRot`. -/
theorem C6_step_recurrence (minWander maxWander : ℝ) (stream : ℕ → ℝ) (start : ℕ)
    (pathLength : ℤ) (n : ℕ) (h : (n : ℤ) < max pathLength 1) :
    ((generate_walking_verts minWander maxWander ⟨stream, start⟩ pathLength).1)[n]? =
      some (posFrom minWander maxWander stream ⟨0, 0, 0⟩ ⟨0, 0, 0.1⟩ start n) :=
  generate_walking_verts_get minWander maxWander stream start pathLength n h

theorem C6_step_recurrence_witness :
    ((2 : ℕ) : ℤ) < max 3 1 ∧
      ((generate_walking_verts 0 0 ⟨fun _ => 0, 0⟩ 3).1)[2]? =
        some (posFrom 0 0 (fun _ => 0) ⟨0, 0, 0⟩ ⟨0, 0, 0.1⟩ 0 2) :=
  ⟨by norm_num, C6_step_recurrence 0 0 (fun _ => 0) 0 3 2 (by norm_num)⟩

/-- C7: when `minWander = maxWander = 0` every drawn angle is 0, no
rotation is applied to the heading, and the walk is a straight line with
constant step `(0, 0, 0.1)`: point `n` is `(0, 0, n * 0.1)`, and any two
consecutive points differ by exactly the initial heading `(0, 0, 0.1)`. -/
theorem C7_zero_wander (stream : ℕ → ℝ) (start : ℕ) (pathLength : ℤ) (n : ℕ)
    (h : (n : ℤ) < max pathLength 1) :
    ((generate_walking_verts 0 0 ⟨stream, start⟩ pathLength).1)[n]? =
        some ⟨0, 0, (n : ℝ) * 0.1⟩ ∧
      ∀ a b, ((generate_walking_verts 0 0 ⟨stream, start⟩ pathLength).1)[n]? = some a →
        ((generate_walking_verts 0 0 ⟨stream, start⟩ pathLength).1)[n + 1]? = some b →
        b - a = ⟨0, 0, 0.1⟩ := by
  have key : ∀ (m : ℕ), (m : ℤ) < max pathLength 1 →
      ((generate_walking_verts 0 0 ⟨stream, start⟩ pathLength).1)[m]? =
        some ⟨0, 0, (m : ℝ) * 0.1⟩ := by
    intro m hm
    rw [generate_walking_verts_get 0 0 stream start pathLength m hm, posFrom_zero_wander]
    norm_num [mul_comm]
  refine ⟨key n h, ?_⟩
  intro a b ha hb
  have hn1 : ((n + 1 : ℕ) : ℤ) < max pathLength 1 := by
    obtain ⟨hlt, -⟩ := List.getElem?_eq_some_iff.mp hb
    have hlen := generate_walking_verts_length 0 0 ⟨stream, start⟩ pathLength
    omega
  rw [key n h] at ha
  rw [key (n + 1) hn1] at hb
  injection ha with ha
  injection hb with hb
  rw [← ha, ← hb]
  ext <;> simp [Vec3.sub_def] <;> ring

theorem C7_zero_wander_witness :
    ((0 : ℕ) : ℤ) < max 2 1 ∧
      (((generate_walking_verts 0 0 ⟨fun _ => 0, 0⟩ 2).1)[0]? =
          some ⟨0, 0, ((0 : ℕ) : ℝ) * 0.1⟩ ∧
        ∀ a b, ((generate_walking_verts 0 0 ⟨fun _ => 0, 0⟩ 2).1)[0]? = some a →
          ((generate_walking_verts 0 0 ⟨fun _ => 0, 0⟩ 2).1)[0 + 1]? = some b →
          b - a = ⟨0, 0, 0.1⟩) :=
  ⟨by norm_num, C7_zero_wander (fun _ => 0) 0 2 0 (by norm_num)⟩

/-- C8: each per-step rotation preserves the magnitude of the heading
vector, so the Euclidean distance between any two consecutive points of a
walk equals the initial heading's magnitude 0.1, for all seeds and wander
parameters. -/
theorem C8_constant_step_length (minWander maxWander : ℝ) (stream : ℕ → ℝ) (start : ℕ)
    (pathLength : ℤ) (n : ℕ) (a b : Vec3)
    (ha : ((generate_walking_verts minWander maxWander ⟨stream, start⟩ pathLength).1)[n]? =
      some a)
    (hb : ((generate_walking_verts minWander maxWander ⟨stream, start⟩ pathLength).1)[n + 1]? =
      some b) :
    norm3 (b - a) = 0.1 := by
  have hlen := generate_walking_verts_length minWander maxWander ⟨stream, start⟩ pathLength
  have hn1 : ((n + 1 : ℕ) : ℤ) < max pathLength 1 := by
    obtain ⟨hlt, -⟩ := List.getElem?_eq_some_iff.mp hb
    omega
  have hn : ((n : ℕ) : ℤ) < max pathLength 1 := by omega
  rw [generate_walking_verts_get minWander maxWander stream start pathLength n hn] at ha
  rw [generate_walking_verts_get minWander maxWander stream start pathLength (n + 1) hn1] at hb
  injection ha with ha
  injection hb with hb
  rw [← ha, ← hb, posFrom_succ, vec3_add_sub_self]
  show Real.sqrt (normSq3 _) = 0.1
  rw [normSq3_hdFrom]
  exact norm3_init_heading

theorem C8_constant_step_length_witness :
    ((generate_walking_verts 0 0 ⟨fun _ => 0, 0⟩ 2).1)[0]? = some ⟨0, 0, 0⟩ ∧
      ((generate_walking_verts 0 0 ⟨fun _ => 0, 0⟩ 2).1)[0 + 1]? = some ⟨0, 0, 0.1⟩ ∧
      norm3 ((⟨0, 0, 0.1⟩ : Vec3) - ⟨0, 0, 0⟩) = 0.1 := by
  have h0 : ((generate_walking_verts 0 0 ⟨fun _ => 0, 0⟩ 2).1)[0]? =
      some (⟨0, 0, 0⟩ : Vec3) := by
    rw [generate_walking_verts_get 0 0 (fun _ => 0) 0 2 0 (by norm_num)]
    rfl
  have h1 : ((generate_walking_verts 0 0 ⟨fun _ => 0, 0⟩ 2).1)[0 + 1]? =
      some (⟨0, 0, 0.1⟩ : Vec3) := by
    rw [generate_walking_verts_get 0 0 (fun _ => 0) 0 2 1 (by norm_num)]
    show some (posFrom 0 0 (fun _ => 0) ⟨0, 0, 0⟩ ⟨0, 0, 0.1⟩ 0 1) = _
    rw [show posFrom 0 0 (fun _ => 0) ⟨0, 0, 0⟩ ⟨0, 0, 0.1⟩ 0 1 =
      (⟨0, 0, 0⟩ : Vec3) + stepRot 0 0 (fun _ => 0) 0 ⟨0, 0, 0.1⟩ from rfl]
    rw [stepRot_zero]
    norm_num [Vec3.add_def]
  exact ⟨h0, h1, C8_constant_step_length 0 0 (fun _ => 0) 0 2 0 ⟨0, 0, 0⟩ ⟨0, 0, 0.1⟩ h0 h1⟩

/-- C9: `random_range` computes exactly `min + u * (max - min)` from the
uniform draw `u ∈ [0, 1)`; it never validates `min ≤ max`: when
`min ≤ max` the result lies in `[min, max]`, and when `max < min` the
effective range inverts to `(max, min]` — the helper still returns a
valid number, with no error, no clamping and no swapping. -/
theorem C9_random_range (rng : RNG) (min max : ℝ)
    (h0 : 0 ≤ rng.next) (h1 : rng.next < 1) :
    (random_range rng min max).1 = min + rng.next * (max - min) ∧
      (min ≤ max →
        min ≤ (random_range rng min max).1 ∧ (random_range rng min max).1 ≤ max) ∧
      (max < min →
        max < (random_range rng min max).1 ∧ (random_range rng min max).1 ≤ min) := by
  refine ⟨rfl, fun hmm => ⟨?_, ?_⟩, fun hmm => ⟨?_, ?_⟩⟩ <;>
    simp only [random_range]
  · nlinarith [mul_nonneg h0 (sub_nonneg.mpr hmm)]
  · nlinarith [mul_nonneg (by linarith : (0 : ℝ) ≤ 1 - rng.next) (sub_nonneg.mpr hmm)]
  · nlinarith [mul_pos (by linarith : (0 : ℝ) < min - max) (by linarith : (0 : ℝ) < 1 - rng.next)]
  · nlinarith [mul_nonneg h0 (by linarith : (0 : ℝ) ≤ min - max)]

theorem C9_random_range_witness :
    (0 : ℝ) ≤ RNG.next ⟨fun _ => 1 / 2, 0⟩ ∧ RNG.next ⟨fun _ => 1 / 2, 0⟩ < 1 ∧
      ((random_range ⟨fun _ => 1 / 2, 0⟩ 7 3).1 =
          7 + RNG.next ⟨fun _ => 1 / 2, 0⟩ * (3 - 7) ∧
        ((7 : ℝ) ≤ 3 →
          7 ≤ (random_range ⟨fun _ => 1 / 2, 0⟩ 7 3).1 ∧
            (random_range ⟨fun _ => 1 / 2, 0⟩ 7 3).1 ≤ 3) ∧
        ((3 : ℝ) < 7 →
          3 < (random_range ⟨fun _ => 1 / 2, 0⟩ 7 3).1 ∧
            (random_range ⟨fun _ => 1 / 2, 0⟩ 7 3).1 ≤ 7)) :=
  ⟨by norm_num [RNG.next], by norm_num [RNG.next],
    C9_random_range ⟨fun _ => 1 / 2, 0⟩ 7 3 (by norm_num [RNG.next])
      (by norm_num [RNG.next])⟩

/-- C10: when a path is materialized as a curve object, the stored spline
has one more control point than the generated vertex list: the fresh
spline already holds one point and `points.add(len(verts))` adds
`len(verts)` more, while the copy loop assigns only the first `len(verts)`
of them, so the created object carries `max pathLength 1 + 1` control
points, the last of which is still the host's default value. -/
theorem C10_spline_extra_point (minWander maxWander : ℝ) (pathLength : ℤ)
    (defaultco : Vec4) (rng : RNG) (curveCount : ℕ) (s : Scene) :
    ∃ o, ((generate_curve minWander maxWander pathLength defaultco rng
          curveCount s).2.1.objs).getLast? = some o ∧
      o.pts.length =
        ((generate_curve minWander maxWander pathLength defaultco rng
          curveCount s).1.2).length + 1 ∧
      (o.pts.length : ℤ) = max pathLength 1 + 1 ∧
      o.pts.getLast? = some defaultco := by
  simp only [generate_curve]
  refine ⟨_, List.getLast?_concat _, ?_, ?_, splinePoints_getLast _ _⟩
  · show (splinePoints (generate_walking_verts minWander maxWander rng pathLength).1
      defaultco).length = _
    rw [splinePoints_length]
  · show ((splinePoints (generate_walking_verts minWander maxWander rng pathLength).1
      defaultco).length : ℤ) = _
    rw [splinePoints_length]
    have h := generate_walking_verts_length minWander maxWander rng pathLength
    push_cast
    omega

/-- C3: regeneration is clear-and-replace, not additive.  Starting from any
well-formed scene and running `execute` twice, the container named
"RandomWalkingSplines" after the second run holds exactly the second run's
`curveCount` children, none of which is an object that existed after the
first run; the container is reused, not recreated (its handle is the
handle of the pre-existing container when one existed), and when no
container existed under that name a fresh empty one is created (with the
first run's fresh handle). -/
theorem C3_regenerate_replace (mt₁ mt₂ : ℕ → ℕ → ℝ) (seed₁ seed₂ n₁ n₂ : ℕ)
    (pl₁ pl₂ : ℤ) (mW₁ MW₁ mW₂ MW₂ : ℝ) (d₁ d₂ : Vec4) (op₁ op₂ : OpState)
    (s0 : Scene) (hWF : WF s0) :
    ∃ e, containerOf (execute mt₂ seed₂ n₂ pl₂ mW₂ MW₂ d₂ op₂
          (execute mt₁ seed₁ n₁ pl₁ mW₁ MW₁ d₁ op₁ s0).1).1 = some e ∧
      (childrenOf (execute mt₂ seed₂ n₂ pl₂ mW₂ MW₂ d₂ op₂
          (execute mt₁ seed₁ n₁ pl₁ mW₁ MW₁ d₁ op₁ s0).1).1 e.id).length = n₂ ∧
      (∀ o ∈ childrenOf (execute mt₂ seed₂ n₂ pl₂ mW₂ MW₂ d₂ op₂
          (execute mt₁ seed₁ n₁ pl₁ mW₁ MW₁ d₁ op₁ s0).1).1 e.id,
        ∀ o' ∈ (execute mt₁ seed₁ n₁ pl₁ mW₁ MW₁ d₁ op₁ s0).1.objs, o.id ≠ o'.id) ∧
      (∀ e0, containerOf s0 = some e0 → e.id = e0.id) ∧
      (containerOf s0 = none → e.id = s0.nextId) := by
  have hids0 : ∀ o ∈ s0.objs, o.id < s0.nextId := fun o ho => (hWF o ho).1
  have hWF1 : WF (execute mt₁ seed₁ n₁ pl₁ mW₁ MW₁ d₁ op₁ s0).1 :=
    execute_WF mt₁ seed₁ n₁ pl₁ mW₁ MW₁ d₁ op₁ s0 hWF
  have hids1 : ∀ o ∈ (execute mt₁ seed₁ n₁ pl₁ mW₁ MW₁ d₁ op₁ s0).1.objs,
      o.id < (execute mt₁ seed₁ n₁ pl₁ mW₁ MW₁ d₁ op₁ s0).1.nextId :=
    fun o ho => (hWF1 o ho).1
  rcases hc0 : containerOf s0 with - | e0
  · -- no container existed: run 1 creates a fresh empty
    have h1 : containerOf (execute mt₁ seed₁ n₁ pl₁ mW₁ MW₁ d₁ op₁ s0).1 =
        some { freshEmpty s0.nextId with selected := true } :=
      execute_container_none mt₁ seed₁ n₁ pl₁ mW₁ MW₁ d₁ op₁ s0 hc0 hids0
    have hpar1 : ({ freshEmpty s0.nextId with selected := true } : Obj).parent ≠
        some ({ freshEmpty s0.nextId with selected := true } : Obj).id := by
      simp [freshEmpty]
    refine ⟨{ { freshEmpty s0.nextId with selected := true } with selected := true },
      execute_container_some mt₂ seed₂ n₂ pl₂ mW₂ MW₂ d₂ op₂ _ _ h1 hids1 hpar1,
      ?_, ?_, ?_, ?_⟩
    · rw [execute_children_some mt₂ seed₂ n₂ pl₂ mW₂ MW₂ d₂ op₂ _ _ h1 hids1]
      exact curvesList_length mW₂ MW₂ pl₂ d₂ _ n₂ 0 ⟨mt₂ seed₂, 0⟩ _
    · intro o ho o' ho'
      rw [execute_children_some mt₂ seed₂ n₂ pl₂ mW₂ MW₂ d₂ op₂ _ _ h1 hids1] at ho
      have h2 := (curvesList_mem mW₂ MW₂ pl₂ d₂ _ n₂ 0 ⟨mt₂ seed₂, 0⟩ _ o ho).2.1
      have h3 := hids1 o' ho'
      omega
    · intro e0' h
      cases h
    · rintro -
      rfl
  · -- a container existed: it is reused by both runs
    have he0 : e0 ∈ s0.objs := by
      unfold containerOf at hc0
      exact List.mem_of_find?_eq_some hc0
    have hpar0 : e0.parent ≠ some e0.id := (hWF e0 he0).2.2
    have h1 : containerOf (execute mt₁ seed₁ n₁ pl₁ mW₁ MW₁ d₁ op₁ s0).1 =
        some { e0 with selected := true } :=
      execute_container_some mt₁ seed₁ n₁ pl₁ mW₁ MW₁ d₁ op₁ s0 e0 hc0 hids0 hpar0
    have hpar1 : ({ e0 with selected := true } : Obj).parent ≠
        some ({ e0 with selected := true } : Obj).id := hpar0
    refine ⟨{ { e0 with selected := true } with selected := true },
      execute_container_some mt₂ seed₂ n₂ pl₂ mW₂ MW₂ d₂ op₂ _ _ h1 hids1 hpar1,
      ?_, ?_, ?_, ?_⟩
    · rw [execute_children_some mt₂ seed₂ n₂ pl₂ mW₂ MW₂ d₂ op₂ _ _ h1 hids1]
      exact curvesList_length mW₂ MW₂ pl₂ d₂ _ n₂ 0 ⟨mt₂ seed₂, 0⟩ _
    · intro o ho o' ho'
      rw [execute_children_some mt₂ seed₂ n₂ pl₂ mW₂ MW₂ d₂ op₂ _ _ h1 hids1] at ho
      have h2 := (curvesList_mem mW₂ MW₂ pl₂ d₂ _ n₂ 0 ⟨mt₂ seed₂, 0⟩ _ o ho).2.1
      have h3 := hids1 o' ho'
      omega
    · intro e0' h
      injection h with h
      subst h
      rfl
    · intro h
      cases h

theorem C3_regenerate_replace_witness :
    WF ⟨[], 0, none⟩ ∧
      ∃ e, containerOf (execute (fun _ _ => 0) 0 1 1 0 0 (0, 0, 0, 0) ⟨⟨fun _ => 0, 0⟩⟩
            (execute (fun _ _ => 0) 0 1 1 0 0 (0, 0, 0, 0) ⟨⟨fun _ => 0, 0⟩⟩
              ⟨[], 0, none⟩).1).1 = some e ∧
        (childrenOf (execute (fun _ _ => 0) 0 1 1 0 0 (0, 0, 0, 0) ⟨⟨fun _ => 0, 0⟩⟩
            (execute (fun _ _ => 0) 0 1 1 0 0 (0, 0, 0, 0) ⟨⟨fun _ => 0, 0⟩⟩
              ⟨[], 0, none⟩).1).1 e.id).length = 1 ∧
        (∀ o ∈ childrenOf (execute (fun _ _ => 0) 0 1 1 0 0 (0, 0, 0, 0) ⟨⟨fun _ => 0, 0⟩⟩
            (execute (fun _ _ => 0) 0 1 1 0 0 (0, 0, 0, 0) ⟨⟨fun _ => 0, 0⟩⟩
              ⟨[], 0, none⟩).1).1 e.id,
          ∀ o' ∈ (execute (fun _ _ => 0) 0 1 1 0 0 (0, 0, 0, 0) ⟨⟨fun _ => 0, 0⟩⟩
              ⟨[], 0, none⟩).1.objs, o.id ≠ o'.id) ∧
        (∀ e0, containerOf ⟨[], 0, none⟩ = some e0 → e.id = e0.id) ∧
        (containerOf ⟨[], 0, none⟩ = none → e.id = (⟨[], 0, none⟩ : Scene).nextId) :=
  ⟨by intro o ho; simp at ho,
    C3_regenerate_replace (fun _ _ => 0) (fun _ _ => 0) 0 0 1 1 1 1 0 0 0 0
      (0, 0, 0, 0) (0, 0, 0, 0) ⟨⟨fun _ => 0, 0⟩⟩ ⟨⟨fun _ => 0, 0⟩⟩ ⟨[], 0, none⟩
      (by intro o ho; simp at ho)⟩

end RandomWalkingSplines
